import Mathlib

/-!
Formal model of the secrets-service core of the CMS (Credential Management
System) repository, embedded shallowly from
`src/services/secrets-service/main.py`.  Python functions become Lean
functions; the relational store becomes an explicit `Store` value threaded
through the operations; HTTP exceptions become an `Except` error channel.
The external collaborators (the Fernet cipher from the `cryptography`
package and the audit sink) are modelled as explicit parameters whose
documented contracts appear as hypotheses of the theorems that need them.
-/

namespace CMS

/-! ## JSON values and a model of `json.loads` / `json.dumps`

`parse_tags` (main.py lines 82-92) feeds arbitrary stored tag
representations through `json.loads`; we model JSON values as an inductive
type, keeping number lexemes as raw strings since the service never
inspects numeric values.
-/

/-- A parsed JSON value, as produced by `json.loads`.  Number lexemes are
kept verbatim (the service never does arithmetic on decoded JSON). -/
inductive JsonVal where
  | null
  | bool (b : Bool)
  | num (lexeme : String)
  | str (s : String)
  | arr (elems : List JsonVal)
  | obj (members : List (String × JsonVal))
  deriving Repr, BEq, Inhabited

/-- Decode one hexadecimal digit. -/
def hexDigit (c : Char) : Option Nat :=
  if '0' ≤ c ∧ c ≤ '9' then some (c.toNat - 48)
  else if 'a' ≤ c ∧ c ≤ 'f' then some (c.toNat - 87)
  else if 'A' ≤ c ∧ c ≤ 'F' then some (c.toNat - 55)
  else none

/-- Skip JSON whitespace, as the CPython scanner does. -/
def skipWs : List Char → List Char
  | c :: rest =>
      if c = ' ' ∨ c = '\t' ∨ c = '\n' ∨ c = '\r' then skipWs rest else c :: rest
  | [] => []

/-- Parse the body of a JSON string literal (the opening quote already
consumed), returning the decoded characters and the remaining input.
Handles the standard escapes and `\uXXXX`, combining valid surrogate
pairs; a lone surrogate is rejected (Python would keep it in the `str`,
but such a character is not representable as a Lean `Char`; no theorem
below exercises this corner). -/
def parseStringChars : List Char → Option (List Char × List Char)
  | [] => none
  | c :: rest =>
    if c = '"' then some ([], rest)
    else if c = '\\' then
      match rest with
      | [] => none
      | e :: rest2 =>
        if e = 'u' then
          match rest2 with
          | h1 :: h2 :: h3 :: h4 :: rest3 =>
            match hexDigit h1, hexDigit h2, hexDigit h3, hexDigit h4 with
            | some a, some b, some c3, some d =>
              let n := ((a * 16 + b) * 16 + c3) * 16 + d
              if n < 0xD800 ∨ 0xE000 ≤ n then
                match parseStringChars rest3 with
                | some (s, r) => some (Char.ofNat n :: s, r)
                | none => none
              else if n < 0xDC00 then
                match rest3 with
                | '\\' :: 'u' :: g1 :: g2 :: g3 :: g4 :: rest4 =>
                  match hexDigit g1, hexDigit g2, hexDigit g3, hexDigit g4 with
                  | some a2, some b2, some c2, some d2 =>
                    let m := ((a2 * 16 + b2) * 16 + c2) * 16 + d2
                    if 0xDC00 ≤ m ∧ m < 0xE000 then
                      match parseStringChars rest4 with
                      | some (s, r) =>
                        some (Char.ofNat (0x10000 + (n - 0xD800) * 0x400 + (m - 0xDC00)) :: s, r)
                      | none => none
                    else none
                  | _, _, _, _ => none
                | _ => none
              else none
            | _, _, _, _ => none
          | _ => none
        else
          let decoded : Option Char :=
            if e = '"' then some '"'
            else if e = '\\' then some '\\'
            else if e = '/' then some '/'
            else if e = 'b' then some (Char.ofNat 8)
            else if e = 'f' then some (Char.ofNat 12)
            else if e = 'n' then some '\n'
            else if e = 'r' then some '\r'
            else if e = 't' then some '\t'
            else none
          match decoded with
          | none => none
          | some d =>
            match parseStringChars rest2 with
            | some (s, r) => some (d :: s, r)
            | none => none
    else if c.toNat < 0x20 then none
    else
      match parseStringChars rest with
      | some (s, r) => some (c :: s, r)
      | none => none

/-- Take a maximal run of ASCII digits. -/
def takeDigits : List Char → List Char × List Char
  | [] => ([], [])
  | c :: rest =>
      if c.isDigit then
        let (ds, r) := takeDigits rest
        (c :: ds, r)
      else ([], c :: rest)

/-- Integer part of a JSON number: `0`, or a nonzero digit followed by
digits. -/
def parseIntPart : List Char → Option (List Char × List Char)
  | [] => none
  | c :: rest =>
      if c = '0' then some (['0'], rest)
      else if c.isDigit then
        let (ds, r) := takeDigits rest
        some (c :: ds, r)
      else none

/-- Optional fractional part `.digits` of a JSON number. -/
def parseFracPart (cs : List Char) : Option (List Char × List Char) :=
  match cs with
  | '.' :: rest =>
      (match takeDigits rest with
       | ([], _) => none
       | (ds, r) => some ('.' :: ds, r))
  | _ => some ([], cs)

/-- Optional exponent part `eE sign? digits` of a JSON number. -/
def parseExpPart (cs : List Char) : Option (List Char × List Char) :=
  match cs with
  | c :: rest =>
      if c = 'e' ∨ c = 'E' then
        let (sgn, rest2) :=
          match rest with
          | s :: r => if s = '+' ∨ s = '-' then ([s], r) else (([] : List Char), s :: r)
          | [] => (([] : List Char), ([] : List Char))
        match takeDigits rest2 with
        | ([], _) => none
        | (ds, r) => some (c :: (sgn ++ ds), r)
      else some ([], c :: rest)
  | [] => some ([], [])

/-- Lex a JSON number, returning its verbatim lexeme. -/
def parseNumberLex (cs : List Char) : Option (List Char × List Char) :=
  let (sgn, cs1) :=
    match cs with
    | '-' :: r => (['-'], r)
    | _ => (([] : List Char), cs)
  match parseIntPart cs1 with
  | none => none
  | some (ip, cs2) =>
    match parseFracPart cs2 with
    | none => none
    | some (fp, cs3) =>
      match parseExpPart cs3 with
      | none => none
      | some (ep, cs4) => some (sgn ++ ip ++ fp ++ ep, cs4)

mutual

/-- Parse one JSON value (fuel-indexed recursive descent mirroring the
CPython `json` scanner, including the `NaN`/`Infinity` extensions). -/
def parseValue : Nat → List Char → Option (JsonVal × List Char)
  | 0, _ => none
  | Nat.succ fuel, cs =>
    match skipWs cs with
    | '"' :: rest =>
        (match parseStringChars rest with
         | some (content, r) => some (.str (String.mk content), r)
         | none => none)
    | '[' :: rest =>
        (match skipWs rest with
         | ']' :: r => some (.arr [], r)
         | cs2 =>
           match parseElems fuel cs2 with
           | some (es, r) => some (.arr es, r)
           | none => none)
    | '\x7b' :: rest =>
        (match skipWs rest with
         | '\x7d' :: r => some (.obj [], r)
         | cs2 =>
           match parseMembers fuel cs2 with
           | some (ms, r) => some (.obj ms, r)
           | none => none)
    | 't' :: 'r' :: 'u' :: 'e' :: rest => some (.bool true, rest)
    | 'f' :: 'a' :: 'l' :: 's' :: 'e' :: rest => some (.bool false, rest)
    | 'n' :: 'u' :: 'l' :: 'l' :: rest => some (.null, rest)
    | 'N' :: 'a' :: 'N' :: rest => some (.num "NaN", rest)
    | 'I' :: 'n' :: 'f' :: 'i' :: 'n' :: 'i' :: 't' :: 'y' :: rest =>
        some (.num "Infinity", rest)
    | '-' :: 'I' :: 'n' :: 'f' :: 'i' :: 'n' :: 'i' :: 't' :: 'y' :: rest =>
        some (.num "-Infinity", rest)
    | cs1 =>
        match parseNumberLex cs1 with
        | some (lex, r) => some (.num (String.mk lex), r)
        | none => none

/-- Parse the elements of a nonempty JSON array up to `]`. -/
def parseElems : Nat → List Char → Option (List JsonVal × List Char)
  | 0, _ => none
  | Nat.succ fuel, cs =>
    match parseValue fuel cs with
    | none => none
    | some (v, r) =>
      match skipWs r with
      | ',' :: r2 =>
          (match parseElems fuel r2 with
           | some (es, rr) => some (v :: es, rr)
           | none => none)
      | ']' :: r2 => some ([v], r2)
      | _ => none

/-- Parse the members of a nonempty JSON object up to the closing brace. -/
def parseMembers : Nat → List Char → Option (List (String × JsonVal) × List Char)
  | 0, _ => none
  | Nat.succ fuel, cs =>
    match skipWs cs with
    | '"' :: rest =>
      (match parseStringChars rest with
       | none => none
       | some (key, r1) =>
         match skipWs r1 with
         | ':' :: r2 =>
           (match parseValue fuel r2 with
            | none => none
            | some (v, r3) =>
              match skipWs r3 with
              | ',' :: r4 =>
                  (match parseMembers fuel r4 with
                   | some (ms, rr) => some ((String.mk key, v) :: ms, rr)
                   | none => none)
              | '\x7d' :: r4 => some ([(String.mk key, v)], r4)
              | _ => none)
         | _ => none)
    | _ => none

end

/-- Model of `json.loads`: parse one value, then require only whitespace to
remain (CPython raises `Extra data` otherwise).  `none` models a raised
`JSONDecodeError`.  The fuel `2 * length + 4` dominates the number of
parsing steps, each of which consumes input. -/
def json_loads (s : String) : Option JsonVal :=
  match parseValue (2 * s.data.length + 4) s.data with
  | none => none
  | some (v, rest) => if (skipWs rest).isEmpty then some v else none

/-! ## `parse_tags` (main.py lines 82-92) -/

/-- The Python value held by the `tags` column as handed to `parse_tags`:
`None`, a list/tuple of decoded JSON values, a string, or any other
Python value. -/
inductive TagValue where
  | pynone
  | pylist (elems : List JsonVal)
  | pystr (s : String)
  | pyother
  deriving Repr, BEq, Inhabited

/-- Transcription of `parse_tags` (main.py lines 82-92):
`None` gives `[]`; a list or tuple is returned as a list unchanged; a
string is `json.loads`-decoded, any decode failure (the bare `except`)
yielding the one-element list `[tags]`; every other value gives `[]`.
The function is total: no branch raises. -/
def parse_tags : TagValue → JsonVal
  | .pynone => .arr []
  | .pylist xs => .arr xs
  | .pystr s =>
      match json_loads s with
      | some v => v
      | none => .arr [.str s]
  | .pyother => .arr []

/-! ## UTF-8 and the crypto envelope (main.py lines 27-31, 76-80)

`encrypt_value` and `decrypt_value` wrap a process-wide Fernet cipher:
`cipher.encrypt(value.encode()).decode()` and
`cipher.decrypt(encrypted_value.encode()).decode()`.  Bytes are modelled
as `List Nat` (each < 256), `str.encode`/`bytes.decode` as UTF-8
encoding/decoding, and the Fernet object as an abstract `Cipher` whose
documented contract (`decrypt` inverts `encrypt`; tokens are ASCII
base64) appears as hypotheses. -/

/-- UTF-8 encoding of one scalar value (what `str.encode()` emits per
character). -/
def utf8EncodeChar (c : Char) : List Nat :=
  let n := c.toNat
  if n < 0x80 then [n]
  else if n < 0x800 then [0xC0 + n / 64, 0x80 + n % 64]
  else if n < 0x10000 then [0xE0 + n / 4096, 0x80 + n / 64 % 64, 0x80 + n % 64]
  else [0xF0 + n / 262144, 0x80 + n / 4096 % 64, 0x80 + n / 64 % 64, 0x80 + n % 64]

/-- UTF-8 encoding of a character sequence: model of `str.encode()`. -/
def utf8Encode (cs : List Char) : List Nat :=
  cs.flatMap utf8EncodeChar

/-- Is `b` a UTF-8 continuation byte? -/
def isContByte (b : Nat) : Bool := 0x80 ≤ b ∧ b < 0xC0

/-- Decode one UTF-8 scalar whose lead byte is `b1` and whose
continuation bytes open `rest`: returns the character and the number of
continuation bytes consumed.  Rejects malformed leads, missing or bad
continuation bytes, overlong forms, surrogates, and out-of-range
scalars, as the strict `bytes.decode()` does. -/
def utf8DecodeStep (b1 : Nat) (rest : List Nat) : Option (Char × Nat) :=
  if b1 < 0x80 then some (Char.ofNat b1, 0)
  else if b1 < 0xC2 then none
  else if b1 < 0xE0 then
    match rest with
    | b2 :: _ =>
      if isContByte b2 then some (Char.ofNat ((b1 - 0xC0) * 64 + (b2 - 0x80)), 1)
      else none
    | _ => none
  else if b1 < 0xF0 then
    match rest with
    | b2 :: b3 :: _ =>
      if isContByte b2 ∧ isContByte b3 then
        let n := (b1 - 0xE0) * 4096 + (b2 - 0x80) * 64 + (b3 - 0x80)
        if 0x800 ≤ n ∧ (n < 0xD800 ∨ 0xE000 ≤ n) then some (Char.ofNat n, 2)
        else none
      else none
    | _ => none
  else if b1 < 0xF5 then
    match rest with
    | b2 :: b3 :: b4 :: _ =>
      if isContByte b2 ∧ isContByte b3 ∧ isContByte b4 then
        let n := (b1 - 0xF0) * 262144 + (b2 - 0x80) * 4096 + (b3 - 0x80) * 64 + (b4 - 0x80)
        if 0x10000 ≤ n ∧ n < 0x110000 then some (Char.ofNat n, 3)
        else none
      else none
    | _ => none
  else none

/-- Strict UTF-8 decoding: model of `bytes.decode()`, which raises
`UnicodeDecodeError` (here `none`) on any malformed input. -/
def utf8Decode : List Nat → Option (List Char)
  | [] => some []
  | b1 :: rest =>
    match utf8DecodeStep b1 rest with
    | none => none
    | some (c, k) =>
      match utf8Decode (rest.drop k) with
      | some cs => some (c :: cs)
      | none => none
termination_by bs => bs.length
decreasing_by simp [List.length_drop]; omega

/-- Abstract symmetric cipher over byte strings: the interface of the
Fernet object created at main.py lines 27-31.  `dec` returns `none` when
the library would raise (`InvalidToken`). -/
structure Cipher where
  enc : List Nat → List Nat
  dec : List Nat → Option (List Nat)

/-- The documented Fernet contract: on byte inputs, decryption inverts
encryption, and tokens are ASCII (urlsafe base64). -/
def GoodCipher (c : Cipher) : Prop :=
  (∀ m, (∀ b ∈ m, b < 256) → c.dec (c.enc m) = some m) ∧
  (∀ m, (∀ b ∈ m, b < 256) → ∀ b ∈ c.enc m, b < 0x80)

/-- Transcription of `encrypt_value` (main.py lines 76-77):
`cipher.encrypt(value.encode()).decode()`.  `none` models a raised
exception while UTF-8-decoding the token. -/
def encrypt_value (c : Cipher) (value : String) : Option String :=
  (utf8Decode (c.enc (utf8Encode value.data))).map String.mk

/-- Transcription of `decrypt_value` (main.py lines 79-80):
`cipher.decrypt(encrypted_value.encode()).decode()`.  `none` models a
raised `InvalidToken` or `UnicodeDecodeError`. -/
def decrypt_value (c : Cipher) (encrypted_value : String) : Option String :=
  match c.dec (utf8Encode encrypted_value.data) with
  | none => none
  | some bs => (utf8Decode bs).map String.mk

/-! ## Data model

Rows of the `users`, `secrets` and `secret_versions` tables (layout as
used by the queries in main.py), the JWT identity payload, and the store
threaded through the operations.  `NOW()` timestamps and serial ids are
supplied explicitly (`now` arguments, `next_id` counter). -/

/-- The verified caller: the decoded JWT payload fields the service
reads (`user_id`, `email`, `role`). -/
structure Identity where
  user_id : Nat
  email : String
  role : String
  deriving Repr, DecidableEq

/-- A `users` row, narrowed to the columns the secrets service reads. -/
structure UserRow where
  id : Nat
  email : String
  deriving Repr, DecidableEq

/-- A `secrets` row. The `tags` column holds serialized text (written by
`json.dumps`). -/
structure SecretRow where
  id : Nat
  name : String
  «type» : String
  encrypted_value : String
  description : Option String
  tags : String
  owner_id : Nat
  version : Nat
  created_at : Nat
  updated_at : Nat
  deleted_at : Option Nat
  deriving Repr, DecidableEq

/-- A `secret_versions` row (id and created_at columns omitted; no query
reads them). -/
structure VersionRow where
  secret_id : Nat
  version : Nat
  encrypted_value : String
  updated_by : Nat
  deriving Repr, DecidableEq

/-- The relational store visible to the secrets service. -/
structure Store where
  users : List UserRow
  secrets : List SecretRow
  secret_versions : List VersionRow
  next_id : Nat
  deriving Repr, DecidableEq

/-- Request body of Create (`SecretCreate`, main.py lines 33-38). -/
structure SecretCreate where
  name : String
  «type» : String
  value : String
  description : Option String := none
  tags : List String := []
  deriving Repr, DecidableEq

/-- Request body of Update (`SecretUpdate`, main.py lines 40-43). -/
structure SecretUpdate where
  value : Option String := none
  description : Option String := none
  tags : Option (List String) := none
  deriving Repr, DecidableEq

/-- Python truthiness of an `Optional[str]` (`if secret_update.value:`
— false for `None` and for the empty string). -/
def pyTruthyStr : Option String → Bool
  | none => false
  | some s => s != ""

/-- Hexadecimal digit character for `\u00XX` escapes. -/
def hexChar (n : Nat) : Char :=
  if n < 10 then Char.ofNat (48 + n) else Char.ofNat (87 + n)

/-- JSON escaping of one character, as `json.dumps` emits it for the
characters this service stores (the `ensure_ascii` escaping of non-ASCII
characters is not modelled; no theorem below reads serialized tag
text back). -/
def jsonEscapeChar (c : Char) : List Char :=
  if c = '"' then ['\\', '"']
  else if c = '\\' then ['\\', '\\']
  else if c = '\n' then ['\\', 'n']
  else if c = '\t' then ['\\', 't']
  else if c = '\r' then ['\\', 'r']
  else if c.toNat < 0x20 then
    ['\\', 'u', '0', '0', hexChar (c.toNat / 16), hexChar (c.toNat % 16)]
  else [c]

/-- Model of `json.dumps` applied to a list of strings (how the service
serializes the `tags` column at main.py lines 111 and 197). -/
def json_dumps_strlist (xs : List String) : String :=
  let item := fun (s : String) => '"' :: (s.data.flatMap jsonEscapeChar) ++ ['"']
  String.mk ('[' :: (List.intercalate [',', ' '] (xs.map item)) ++ [']'])

/-! ## Audit emitter (main.py lines 251-258) -/

/-- The outbound audit notification payload. -/
structure AuditEvent where
  user_id : Nat
  user_email : String
  action : String
  secret_id : Nat
  timestamp : Nat
  deriving Repr, DecidableEq

/-- Outcome of one delivery attempt to the audit collaborator:
success, connection failure, timeout, or any other raised exception. -/
inductive DeliveryResult where
  | ok
  | unreachable
  | timeout
  | exception (msg : String)
  deriving Repr, DecidableEq

/-- Transcription of `log_audit` (main.py lines 251-258): one POST to the
audit collaborator inside `try: ... except: pass` — every delivery
outcome, exceptional or not, is absorbed and the function returns
normally. -/
def log_audit (deliver : AuditEvent → DeliveryResult) (user_id : Nat) (action : String)
    (secret_id : Nat) (user_email : String) (now : Nat) : Unit :=
  match deliver ⟨user_id, user_email, action, secret_id, now⟩ with
  | .ok => ()
  | .unreachable => ()
  | .timeout => ()
  | .exception _ => ()

/-- A delivery oracle under which every attempt succeeds. -/
def deliverOk : AuditEvent → DeliveryResult := fun _ => .ok

/-! ## Errors and operations -/

/-- Error channel of the handlers: `httpException s d` models
`HTTPException(status_code=s, detail=d)`; `internalError` models any
other exception escaping the handler (the transaction is rolled back, so
an erroring operation leaves the store unchanged — errors carry no
store). -/
inductive ApiError where
  | httpException (status : Nat) (detail : String)
  | internalError
  deriving Repr, DecidableEq

/-- The one Not-Found error every existence/ownership failure raises
(main.py lines 166, 183, 215, 227). -/
def notFoundError : ApiError := .httpException 404 "Secret not found"

/-- The Forbidden error raised by Create for role `user` (main.py
line 102). -/
def forbiddenCreateError : ApiError :=
  .httpException 403 "Users cannot create secrets. Contact your administrator."

/-- Response body of Create (`SecretResponse` plus `owner_email`,
main.py line 117). -/
structure SecretResponse where
  id : Nat
  name : String
  «type» : String
  description : Option String
  tags : JsonVal
  created_at : Nat
  updated_at : Nat
  version : Nat
  owner_email : String
  deriving Repr, BEq

/-- Transcription of `create_secret` (main.py lines 98-117): reject role
`user` with 403; otherwise encrypt the value, insert a version-1 row,
commit, emit CREATE (best effort), and return the row with parsed tags. -/
def create_secret (cipher : Cipher) (deliver : AuditEvent → DeliveryResult) (db : Store)
    (secret : SecretCreate) (user : Identity) (now : Nat) :
    Except ApiError (SecretResponse × Store) :=
  if user.role = "user" then
    .error forbiddenCreateError
  else
    match encrypt_value cipher secret.value with
    | none => .error .internalError
    | some encrypted_value =>
      let id := db.next_id
      let row : SecretRow :=
        { id := id, name := secret.name, «type» := secret.«type»,
          encrypted_value := encrypted_value, description := secret.description,
          tags := json_dumps_strlist secret.tags,
          owner_id := user.user_id, version := 1,
          created_at := now, updated_at := now, deleted_at := none }
      let db2 := { db with secrets := db.secrets ++ [row], next_id := db.next_id + 1 }
      let _ := log_audit deliver user.user_id "CREATE" id user.email now
      .ok ({ id := id, name := secret.name, «type» := secret.«type»,
             description := secret.description,
             tags := parse_tags (.pystr (json_dumps_strlist secret.tags)),
             created_at := now, updated_at := now, version := 1,
             owner_email := user.email }, db2)

/-- First row of `SELECT s.*, u.email FROM secrets s JOIN users u ON
s.owner_id = u.id WHERE p s` (nested-loop order). -/
def selectJoinFirst (db : Store) (p : SecretRow → Bool) : Option (SecretRow × UserRow) :=
  ((db.secrets.filter p).flatMap
    (fun s => (db.users.filter (fun u => u.id == s.owner_id)).map (fun u => (s, u)))).head?

/-- The masked placeholder returned when `show_value` is false
(main.py line 171). -/
def maskedValue : String := "••••••••••••"

/-- Response body of Get: all `secrets` columns except
`encrypted_value`, plus parsed tags, `owner_email`, and the (revealed or
masked) `value`. -/
structure GetResponse where
  id : Nat
  name : String
  «type» : String
  description : Option String
  tags : JsonVal
  owner_id : Nat
  version : Nat
  created_at : Nat
  updated_at : Nat
  deleted_at : Option Nat
  owner_email : String
  value : String
  deriving Repr, BEq

/-- The row selection of `get_secret` (main.py lines 148-162): admin
callers query by id and liveness only, other callers also by
ownership. -/
def getQuery (db : Store) (secret_id : Nat) (user : Identity) : Option (SecretRow × UserRow) :=
  if user.role = "admin" then
    selectJoinFirst db (fun s => s.id == secret_id && s.deleted_at == none)
  else
    selectJoinFirst db (fun s =>
      s.id == secret_id && s.owner_id == user.user_id && s.deleted_at == none)

/-- Transcription of `get_secret` (main.py lines 144-174): a missing row
is a 404; the value is decrypted only when `show_value` is set, else the
masked placeholder is returned. -/
def get_secret (cipher : Cipher) (deliver : AuditEvent → DeliveryResult) (db : Store)
    (secret_id : Nat) (show_value : Bool) (user : Identity) (now : Nat) :
    Except ApiError GetResponse :=
  match getQuery db secret_id user with
  | none => .error notFoundError
  | some (s, u) =>
    let _ := log_audit deliver user.user_id "VIEW" secret_id user.email now
    let value? := if show_value then decrypt_value cipher s.encrypted_value else some maskedValue
    match value? with
    | none => .error .internalError
    | some v =>
      .ok { id := s.id, name := s.name, «type» := s.«type», description := s.description,
            tags := parse_tags (.pystr s.tags), owner_id := s.owner_id,
            version := s.version, created_at := s.created_at, updated_at := s.updated_at,
            deleted_at := s.deleted_at, owner_email := u.email, value := v }

/-- The row filter of Update/Delete: id, ownership and liveness
(`WHERE id = %s AND owner_id = %s AND deleted_at IS NULL`). -/
def ownedLive (secret_id : Nat) (user : Identity) (s : SecretRow) : Bool :=
  s.id == secret_id && s.owner_id == user.user_id && s.deleted_at == none

/-- The SET clause of the UPDATE statement (main.py lines 188-202)
applied to one row: re-encrypted value and version bump only when a
truthy `value` was sent (`enc` is its ciphertext), description and tags
only when present, `updated_at` always. -/
def applySecretUpdate (su : SecretUpdate) (enc : Option String) (now : Nat)
    (r : SecretRow) : SecretRow :=
  let r1 := match enc with
    | some e => { r with encrypted_value := e, version := r.version + 1 }
    | none => r
  let r2 := match su.description with
    | some d => { r1 with description := some d }
    | none => r1
  let r3 := match su.tags with
    | some ts => { r2 with tags := json_dumps_strlist ts }
    | none => r2
  { r3 with updated_at := now }

/-- Transcription of `update_secret` (main.py lines 176-207): select the
caller-owned live row (404 otherwise), archive its current version and
ciphertext into `secret_versions`, apply the SET clause to every row
matching id and owner, commit, and return the new version.  An encryption
failure aborts the transaction (`internalError`, store unchanged). -/
def update_secret (cipher : Cipher) (deliver : AuditEvent → DeliveryResult) (db : Store)
    (secret_id : Nat) (su : SecretUpdate) (user : Identity) (now : Nat) :
    Except ApiError (Nat × Store) :=
  match db.secrets.find? (ownedLive secret_id user) with
  | none => .error notFoundError
  | some existing =>
    let enc? : Option (Option String) :=
      if pyTruthyStr su.value then
        match encrypt_value cipher (su.value.getD "") with
        | some e => some (some e)
        | none => none
      else some none
    match enc? with
    | none => .error .internalError
    | some enc =>
      let archived : VersionRow :=
        { secret_id := secret_id, version := existing.version,
          encrypted_value := existing.encrypted_value, updated_by := user.user_id }
      let newSecrets := db.secrets.map (fun r =>
        if r.id == secret_id && r.owner_id == user.user_id then
          applySecretUpdate su enc now r
        else r)
      match newSecrets.find? (fun r => r.id == secret_id && r.owner_id == user.user_id) with
      | none => .error .internalError
      | some result =>
        let db2 := { db with secrets := newSecrets,
                             secret_versions := db.secret_versions ++ [archived] }
        let _ := log_audit deliver user.user_id "UPDATE" secret_id user.email now
        .ok (result.version, db2)

/-- Transcription of `delete_secret` (main.py lines 209-219): set the
tombstone on the caller-owned live row; a zero row count is a 404.  The
row itself is never removed. -/
def delete_secret (deliver : AuditEvent → DeliveryResult) (db : Store) (secret_id : Nat)
    (user : Identity) (now : Nat) : Except ApiError (String × Store) :=
  let rowcount := db.secrets.countP (fun s => ownedLive secret_id user s)
  if rowcount = 0 then .error notFoundError
  else
    let newSecrets := db.secrets.map (fun s =>
      if ownedLive secret_id user s then { s with deleted_at := some now } else s)
    let db2 := { db with secrets := newSecrets }
    let _ := log_audit deliver user.user_id "DELETE" secret_id user.email now
    .ok ("Secret deleted successfully", db2)

/-! ## Rotation engine (main.py lines 239-249) -/

/-- The rotation alphabet: `string.ascii_letters + string.digits +
"!@#$%^&*"`. -/
def rotate_alphabet : List Char :=
  ("abcdefghijklmnopqrstuvwxyzABCDEFGHIJKLMNOPQRSTUVWXYZ" ++ "0123456789" ++ "!@#$%^&*").data

/-- The generated value: 20 draws from the alphabet.  `secrets.choice`
(a cryptographically secure uniform draw) is modelled as an arbitrary
index oracle `choice`; theorems quantify over every oracle, so they hold
for whatever bytes the CSPRNG produces. -/
def generate_password (choice : Nat → Fin rotate_alphabet.length) : String :=
  String.mk ((List.range 20).map (fun i => rotate_alphabet.get (choice i)))

/-- Transcription of `rotate_secret` (main.py lines 239-249): generate a
fresh value, push it through `update_secret` (whose 404 propagates), emit
ROTATE, and return the new value. -/
def rotate_secret (cipher : Cipher) (deliver : AuditEvent → DeliveryResult) (db : Store)
    (secret_id : Nat) (user : Identity) (choice : Nat → Fin rotate_alphabet.length)
    (now : Nat) : Except ApiError (String × Store) :=
  let new_password := generate_password choice
  match update_secret cipher deliver db secret_id { value := some new_password } user now with
  | .error e => .error e
  | .ok (_, db2) =>
    let _ := log_audit deliver user.user_id "ROTATE" secret_id user.email now
    .ok (new_password, db2)

/-! ## A concrete cipher for witnesses

`GoodCipher` is inhabited: code each byte as two ASCII characters. -/

/-- Decode the two-characters-per-byte coding of `hexCipher`. -/
def hexPairs : List Nat → Option (List Nat)
  | [] => some []
  | x :: y :: rest =>
      match hexPairs rest with
      | some t => some (((x - 48) * 16 + (y - 48)) :: t)
      | none => none
  | [_] => none

/-- A concrete `Cipher` coding each byte as two ASCII characters;
used to instantiate witnesses. -/
def hexCipher : Cipher where
  enc := fun m => m.flatMap (fun b => [48 + b / 16, 48 + b % 16])
  dec := hexPairs

/-! ## Derived notions and concrete fixtures used by the theorems -/

/-- Owner rows referenced by secrets exist (the `owner_id` foreign key of
the persisted layout; the service itself never deletes `users` rows). -/
def StoreOwnersExist (db : Store) : Prop :=
  ∀ s ∈ db.secrets, ∃ u ∈ db.users, u.id = s.owner_id

/-- Equality of all `secrets` columns except `deleted_at`. -/
def sameExceptDeleted (a b : SecretRow) : Prop :=
  a.id = b.id ∧ a.name = b.name ∧ a.«type» = b.«type» ∧
  a.encrypted_value = b.encrypted_value ∧ a.description = b.description ∧
  a.tags = b.tags ∧ a.owner_id = b.owner_id ∧ a.version = b.version ∧
  a.created_at = b.created_at ∧ a.updated_at = b.updated_at

/-- The archived version numbers recorded for one secret, in insertion
order. -/
def versionsOf (db : Store) (sid : Nat) : List Nat :=
  (db.secret_versions.filter (fun rrow => rrow.secret_id == sid)).map
    (fun rrow => rrow.version)

/-- A sequence of value-changing updates applied through
`update_secret`, stopping at the first error. -/
def applyValueUpdates (cipher : Cipher) (deliver : AuditEvent → DeliveryResult)
    (sid : Nat) (user : Identity) (now : Nat) : Store → List String → Except ApiError Store
  | db, [] => .ok db
  | db, v :: vs =>
    match update_secret cipher deliver db sid { value := some v } user now with
    | .error e => .error e
    | .ok (_, db2) => applyValueUpdates cipher deliver sid user now db2 vs

/-- Fixture: a developer identity owning `secret1`. -/
def alice : Identity := ⟨1, "alice@example.com", "developer"⟩

/-- Fixture: an admin identity that owns nothing. -/
def adminUser : Identity := ⟨2, "admin@example.com", "admin"⟩

/-- Fixture: a read-only-role identity owning `secretU`. -/
def bobUser : Identity := ⟨3, "user@example.com", "user"⟩

/-- Fixture: a live secret owned by `alice`. -/
def secret1 : SecretRow :=
  { id := 1, name := "db-pass", «type» := "password", encrypted_value := "tok",
    description := none, tags := "[\"env\"]", owner_id := 1, version := 1,
    created_at := 0, updated_at := 0, deleted_at := none }

/-- Fixture: a live secret owned by `bobUser` (role `user`). -/
def secretU : SecretRow :=
  { id := 2, name := "k", «type» := "password", encrypted_value := "t2",
    description := none, tags := "[]", owner_id := 3, version := 1,
    created_at := 0, updated_at := 0, deleted_at := none }

/-- Fixture store with one secret. -/
def store1 : Store :=
  { users := [⟨1, "alice@example.com"⟩, ⟨2, "admin@example.com"⟩, ⟨3, "user@example.com"⟩],
    secrets := [secret1], secret_versions := [], next_id := 2 }

/-- Fixture store with two secrets, one owned by the read-only role. -/
def store2 : Store :=
  { users := [⟨1, "alice@example.com"⟩, ⟨2, "admin@example.com"⟩, ⟨3, "user@example.com"⟩],
    secrets := [secret1, secretU], secret_versions := [], next_id := 3 }

/-- Fixture create request. -/
def createReq : SecretCreate := { name := "api-key", «type» := "token", value := "v1" }

/-- Fixture randomness oracle: always the first alphabet character. -/
def choice0 : Nat → Fin rotate_alphabet.length := fun _ => ⟨0, by decide⟩

/-! ## Supporting lemmas -/

lemma char_valid_range (c : Char) :
    c.toNat < 0xD800 ∨ (0xE000 ≤ c.toNat ∧ c.toNat < 0x110000) := by
  have h := c.valid
  unfold UInt32.isValidChar Nat.isValidChar at h
  exact h

lemma utf8Decode_encodeChar (c : Char) (rest : List Nat) :
    utf8Decode (utf8EncodeChar c ++ rest) =
      match utf8Decode rest with
      | some cs => some (c :: cs)
      | none => none := by
  have hv := char_valid_range c
  have hofNat : Char.ofNat c.toNat = c := Char.ofNat_toNat c
  by_cases h1 : c.toNat < 0x80
  · have henc : utf8EncodeChar c = [c.toNat] := by
      simp only [utf8EncodeChar]
      rw [if_pos h1]
    rw [henc]
    rw [List.cons_append, List.nil_append, utf8Decode]
    have hstep : utf8DecodeStep c.toNat rest = some (c, 0) := by
      simp only [utf8DecodeStep]
      rw [if_pos h1, hofNat]
    rw [hstep]
    simp only [List.drop_zero]
  · by_cases h2 : c.toNat < 0x800
    · have henc : utf8EncodeChar c = [0xC0 + c.toNat / 64, 0x80 + c.toNat % 64] := by
        simp only [utf8EncodeChar]
        rw [if_neg h1, if_pos h2]
      rw [henc, List.cons_append, List.cons_append, List.nil_append, utf8Decode]
      have hstep : utf8DecodeStep (0xC0 + c.toNat / 64) ((0x80 + c.toNat % 64) :: rest) =
          some (c, 1) := by
        have e1 : ¬ (0xC0 + c.toNat / 64 < 0x80) := by omega
        have e2 : ¬ (0xC0 + c.toNat / 64 < 0xC2) := by omega
        have e3 : (0xC0 + c.toNat / 64 < 0xE0) := by omega
        have e4 : isContByte (0x80 + c.toNat % 64) = true := by
          simp only [isContByte, decide_eq_true_eq]
          omega
        have e5 : (0xC0 + c.toNat / 64 - 0xC0) * 64 + (0x80 + c.toNat % 64 - 0x80) = c.toNat := by
          omega
        simp only [utf8DecodeStep]
        rw [if_neg e1, if_neg e2, if_pos e3]
        simp only [e4, if_true, e5, hofNat]
      rw [hstep]
      simp only [List.drop_one, List.tail_cons]
    · by_cases h3 : c.toNat < 0x10000
      · have henc : utf8EncodeChar c =
            [0xE0 + c.toNat / 4096, 0x80 + c.toNat / 64 % 64, 0x80 + c.toNat % 64] := by
          simp only [utf8EncodeChar]
          rw [if_neg h1, if_neg h2, if_pos h3]
        rw [henc, List.cons_append, List.cons_append, List.cons_append, List.nil_append,
          utf8Decode]
        have hstep : utf8DecodeStep (0xE0 + c.toNat / 4096)
            ((0x80 + c.toNat / 64 % 64) :: (0x80 + c.toNat % 64) :: rest) = some (c, 2) := by
          have e1 : ¬ (0xE0 + c.toNat / 4096 < 0x80) := by omega
          have e2 : ¬ (0xE0 + c.toNat / 4096 < 0xC2) := by omega
          have e3 : ¬ (0xE0 + c.toNat / 4096 < 0xE0) := by omega
          have e4 : (0xE0 + c.toNat / 4096 < 0xF0) := by omega
          have e5 : (isContByte (0x80 + c.toNat / 64 % 64) ∧ isContByte (0x80 + c.toNat % 64)) := by
            simp only [isContByte, decide_eq_true_eq]
            omega
          have e6 : (0xE0 + c.toNat / 4096 - 0xE0) * 4096 + (0x80 + c.toNat / 64 % 64 - 0x80) * 64 +
              (0x80 + c.toNat % 64 - 0x80) = c.toNat := by omega
          have e7 : 0x800 ≤ c.toNat ∧ (c.toNat < 0xD800 ∨ 0xE000 ≤ c.toNat) := by omega
          simp only [utf8DecodeStep]
          rw [if_neg e1, if_neg e2, if_neg e3, if_pos e4]
          simp only [e5, if_true, e6, e7, hofNat, and_true, true_and]
        rw [hstep]
        simp only [List.drop_succ_cons, List.drop_zero]
      · have henc : utf8EncodeChar c =
            [0xF0 + c.toNat / 262144, 0x80 + c.toNat / 4096 % 64, 0x80 + c.toNat / 64 % 64,
              0x80 + c.toNat % 64] := by
          simp only [utf8EncodeChar]
          rw [if_neg h1, if_neg h2, if_neg h3]
        rw [henc, List.cons_append, List.cons_append, List.cons_append, List.cons_append,
          List.nil_append, utf8Decode]
        have hstep : utf8DecodeStep (0xF0 + c.toNat / 262144)
            ((0x80 + c.toNat / 4096 % 64) :: (0x80 + c.toNat / 64 % 64) ::
              (0x80 + c.toNat % 64) :: rest) = some (c, 3) := by
          have e1 : ¬ (0xF0 + c.toNat / 262144 < 0x80) := by omega
          have e2 : ¬ (0xF0 + c.toNat / 262144 < 0xC2) := by omega
          have e3 : ¬ (0xF0 + c.toNat / 262144 < 0xE0) := by omega
          have e4 : ¬ (0xF0 + c.toNat / 262144 < 0xF0) := by omega
          have e4b : (0xF0 + c.toNat / 262144 < 0xF5) := by omega
          have e5 : (isContByte (0x80 + c.toNat / 4096 % 64) ∧
              isContByte (0x80 + c.toNat / 64 % 64) ∧ isContByte (0x80 + c.toNat % 64)) := by
            simp only [isContByte, decide_eq_true_eq]
            omega
          have e6 : (0xF0 + c.toNat / 262144 - 0xF0) * 262144 +
              (0x80 + c.toNat / 4096 % 64 - 0x80) * 4096 +
              (0x80 + c.toNat / 64 % 64 - 0x80) * 64 + (0x80 + c.toNat % 64 - 0x80) = c.toNat := by
            omega
          have e7 : 0x10000 ≤ c.toNat ∧ c.toNat < 0x110000 := by omega
          simp only [utf8DecodeStep]
          rw [if_neg e1, if_neg e2, if_neg e3, if_neg e4, if_pos e4b]
          simp only [e5, if_true, e6, hofNat, and_true, true_and]
          rw [if_pos e7]
        rw [hstep]
        simp only [List.drop_succ_cons, List.drop_zero]

lemma utf8Decode_utf8Encode (cs : List Char) : utf8Decode (utf8Encode cs) = some cs := by
  induction cs with
  | nil => simp [utf8Encode, utf8Decode]
  | cons c cs ih =>
    have : utf8Encode (c :: cs) = utf8EncodeChar c ++ utf8Encode cs := by
      simp [utf8Encode]
    rw [this, utf8Decode_encodeChar, ih]

lemma utf8EncodeChar_lt_256 (c : Char) : ∀ b ∈ utf8EncodeChar c, b < 256 := by
  have hv := char_valid_range c
  intro b hb
  simp only [utf8EncodeChar] at hb
  by_cases h1 : c.toNat < 0x80
  · rw [if_pos h1] at hb
    simp at hb
    omega
  · rw [if_neg h1] at hb
    by_cases h2 : c.toNat < 0x800
    · rw [if_pos h2] at hb
      simp at hb
      rcases hb with h | h <;> omega
    · rw [if_neg h2] at hb
      by_cases h3 : c.toNat < 0x10000
      · rw [if_pos h3] at hb
        simp at hb
        rcases hb with h | h | h <;> omega
      · rw [if_neg h3] at hb
        simp at hb
        rcases hb with h | h | h | h <;> omega

lemma utf8Encode_lt_256 (cs : List Char) : ∀ b ∈ utf8Encode cs, b < 256 := by
  intro b hb
  simp only [utf8Encode, List.mem_flatMap] at hb
  obtain ⟨c, _, hbc⟩ := hb
  exact utf8EncodeChar_lt_256 c b hbc

lemma utf8Decode_ascii (bs : List Nat) (h : ∀ b ∈ bs, b < 0x80) :
    utf8Decode bs = some (bs.map Char.ofNat) := by
  induction bs with
  | nil => simp [utf8Decode]
  | cons b rest ih =>
    have hb : b < 0x80 := h b (List.mem_cons_self b rest)
    rw [utf8Decode]
    have hstep : utf8DecodeStep b rest = some (Char.ofNat b, 0) := by
      simp only [utf8DecodeStep]
      rw [if_pos hb]
    rw [hstep]
    simp only [List.drop_zero]
    rw [ih (fun x hx => h x (List.mem_cons_of_mem b hx))]
    simp

lemma toNat_ofNat_ascii (b : Nat) (h : b < 0x80) : (Char.ofNat b).toNat = b := by
  have hv : b.isValidChar := Or.inl (by omega)
  unfold Char.ofNat
  rw [dif_pos hv]
  rfl

lemma utf8Encode_map_ofNat (bs : List Nat) (h : ∀ b ∈ bs, b < 0x80) :
    utf8Encode (bs.map Char.ofNat) = bs := by
  induction bs with
  | nil => rfl
  | cons b rest ih =>
    have hb : b < 0x80 := h b (List.mem_cons_self b rest)
    have htn := toNat_ofNat_ascii b hb
    simp only [List.map_cons, utf8Encode, List.flatMap_cons]
    have henc : utf8EncodeChar (Char.ofNat b) = [b] := by
      simp only [utf8EncodeChar, htn]
      rw [if_pos hb]
    rw [henc]
    have := ih (fun x hx => h x (List.mem_cons_of_mem b hx))
    simp only [utf8Encode] at this
    rw [this]
    rfl

lemma hexPairs_enc (m : List Nat) (h : ∀ b ∈ m, b < 256) :
    hexPairs (m.flatMap (fun b => [48 + b / 16, 48 + b % 16])) = some m := by
  induction m with
  | nil => rfl
  | cons b rest ih =>
    have hb : b < 256 := h b (List.mem_cons_self b rest)
    have hsplit : (b :: rest).flatMap (fun b => [48 + b / 16, 48 + b % 16]) =
        (48 + b / 16) :: (48 + b % 16) ::
          rest.flatMap (fun b => [48 + b / 16, 48 + b % 16]) := rfl
    rw [hsplit, hexPairs, ih (fun x hx => h x (List.mem_cons_of_mem b hx))]
    have harith : (48 + b / 16 - 48) * 16 + (48 + b % 16 - 48) = b := by omega
    rw [harith]

/-- The concrete witness cipher satisfies the Fernet contract. -/
lemma goodCipher_hexCipher : GoodCipher hexCipher := by
  constructor
  · intro m hm
    exact hexPairs_enc m hm
  · intro m hm b hb
    simp only [hexCipher, List.mem_flatMap] at hb
    obtain ⟨x, hx, hbx⟩ := hb
    have hx256 : x < 256 := hm x hx
    simp at hbx
    rcases hbx with h | h <;> omega

/-- Under the Fernet contract, encryption of a value never fails and
yields the ASCII token re-read as a string. -/
lemma encrypt_value_eq_some (c : Cipher) (hc : GoodCipher c) (v : String) :
    encrypt_value c v = some (String.mk ((c.enc (utf8Encode v.data)).map Char.ofNat)) := by
  have hm := utf8Encode_lt_256 v.data
  have hascii := hc.2 _ hm
  simp only [encrypt_value, utf8Decode_ascii _ hascii, Option.map_some']

/-- C8: for all plaintext strings p, decrypting the result of encrypting
p under the same key returns p — stated for every cipher satisfying the
documented Fernet contract (decryption inverts encryption on bytes and
tokens are ASCII), which the library key object provides. -/
theorem C8_encrypt_decrypt_roundtrip (c : Cipher) (hc : GoodCipher c) (p : String) :
    (encrypt_value c p).bind (decrypt_value c) = some p := by
  obtain ⟨hdec, hascii⟩ := hc
  have hm : ∀ b ∈ utf8Encode p.data, b < 256 := utf8Encode_lt_256 p.data
  have henc_ascii : ∀ b ∈ c.enc (utf8Encode p.data), b < 0x80 := hascii _ hm
  have h1 : utf8Decode (c.enc (utf8Encode p.data)) =
      some ((c.enc (utf8Encode p.data)).map Char.ofNat) := utf8Decode_ascii _ henc_ascii
  simp only [encrypt_value, h1, decrypt_value, Option.map_some', Option.some_bind]
  rw [utf8Encode_map_ofNat _ henc_ascii, hdec _ hm]
  simp only []
  rw [utf8Decode_utf8Encode]
  rfl

/-- C8 witness: the round trip evaluated at a concrete conforming cipher
and plaintext. -/
theorem C8_roundtrip_witness :
    GoodCipher hexCipher ∧
    (encrypt_value hexCipher "p@ss1").bind (decrypt_value hexCipher) = some "p@ss1" :=
  ⟨goodCipher_hexCipher, C8_encrypt_decrypt_roundtrip hexCipher goodCipher_hexCipher "p@ss1"⟩

/-- C2 counterexample: the stored tag text `[` is a malformed serialized
form (`json.loads` fails on it), yet `parse_tags` returns the one-element
list containing the raw string, not the empty list the claim requires. -/
theorem C2_counterexample :
    json_loads "[" = none ∧
    parse_tags (.pystr "[") = .arr [.str "["] ∧
    parse_tags (.pystr "[") ≠ .arr [] := by
  refine ⟨rfl, rfl, ?_⟩
  rw [show parse_tags (.pystr "[") = .arr [.str "["] from rfl]
  simp

/-- C2 (amended): `parse_tags` is total and normalizes as the code does:
`None` and non-list/non-string values to the empty list, a stored list
to itself, a string to its `json.loads` value when it parses (whatever
JSON value that is), and to the one-element list containing the raw
string when it does not. -/
theorem C2_parse_tags_amended :
    parse_tags .pynone = .arr [] ∧
    (∀ xs, parse_tags (.pylist xs) = .arr xs) ∧
    (∀ s v, json_loads s = some v → parse_tags (.pystr s) = v) ∧
    (∀ s, json_loads s = none → parse_tags (.pystr s) = .arr [.str s]) ∧
    parse_tags .pyother = .arr [] := by
  refine ⟨rfl, fun xs => rfl, fun s v h => ?_, fun s h => ?_, rfl⟩
  · simp [parse_tags, h]
  · simp [parse_tags, h]

/-- C2 witness: the amended statement applied to a bare tag string and to
a well-formed serialized list. -/
theorem C2_parse_tags_witness :
    parse_tags (.pystr "ops") = .arr [.str "ops"] ∧
    parse_tags (.pystr "[\"a\", \"b\"]") = .arr [.str "a", .str "b"] :=
  ⟨C2_parse_tags_amended.2.2.2.1 "ops" (by rfl),
   C2_parse_tags_amended.2.2.1 "[\"a\", \"b\"]" (.arr [.str "a", .str "b"]) (by rfl)⟩

lemma selectJoinFirst_eq_none_iff (db : Store) (p : SecretRow → Bool)
    (hwf : StoreOwnersExist db) :
    selectJoinFirst db p = none ↔ ∀ s ∈ db.secrets, ¬ p s := by
  constructor
  · intro h s hs hp
    obtain ⟨u, hu, huid⟩ := hwf s hs
    rw [selectJoinFirst, List.head?_eq_none_iff, List.flatMap_eq_nil_iff] at h
    have hs' : s ∈ db.secrets.filter p := List.mem_filter.mpr ⟨hs, hp⟩
    have hmap := h s hs'
    rw [List.map_eq_nil_iff, List.filter_eq_nil_iff] at hmap
    exact hmap u hu (by simp [huid])
  · intro hall
    have hfil : db.secrets.filter p = [] := by
      rw [List.filter_eq_nil_iff]
      exact hall
    rw [selectJoinFirst, hfil]
    rfl

lemma ownedLive_eq_true (sid : Nat) (user : Identity) (s : SecretRow) :
    ownedLive sid user s = true ↔
      s.id = sid ∧ s.owner_id = user.user_id ∧ s.deleted_at = none := by
  simp [ownedLive, and_assoc]

lemma applySecretUpdate_id (su : SecretUpdate) (enc : Option String) (now : Nat)
    (r : SecretRow) : (applySecretUpdate su enc now r).id = r.id := by
  rcases su with ⟨v, d, t⟩
  cases enc <;> cases d <;> cases t <;> rfl

lemma applySecretUpdate_owner (su : SecretUpdate) (enc : Option String) (now : Nat)
    (r : SecretRow) : (applySecretUpdate su enc now r).owner_id = r.owner_id := by
  rcases su with ⟨v, d, t⟩
  cases enc <;> cases d <;> cases t <;> rfl

lemma update_secret_ok (cipher : Cipher) (hc : GoodCipher cipher)
    (deliver : AuditEvent → DeliveryResult) (db : Store) (sid : Nat) (su : SecretUpdate)
    (user : Identity) (now : Nat)
    (hex : ∃ s ∈ db.secrets, ownedLive sid user s) :
    ∃ v db2, update_secret cipher deliver db sid su user now = .ok (v, db2) := by
  obtain ⟨s, hs, hps⟩ := hex
  have hfind : (db.secrets.find? (ownedLive sid user)).isSome :=
    List.find?_isSome.mpr ⟨s, hs, hps⟩
  obtain ⟨r, hr⟩ := Option.isSome_iff_exists.mp hfind
  have henc : ∃ e, (if pyTruthyStr su.value then
      match encrypt_value cipher (su.value.getD "") with
      | some e => some (some e)
      | none => none
    else some none) = some e := by
    by_cases htr : pyTruthyStr su.value
    · rw [if_pos htr, encrypt_value_eq_some cipher hc _]
      exact ⟨_, rfl⟩
    · rw [if_neg htr]
      exact ⟨none, rfl⟩
  obtain ⟨e, he⟩ := henc
  have hmem : r ∈ db.secrets := List.mem_of_find?_eq_some hr
  have hpr : ownedLive sid user r = true := List.find?_some hr
  have hcond : (r.id == sid && r.owner_id == user.user_id) = true := by
    rw [ownedLive_eq_true] at hpr
    simp [hpr.1, hpr.2.1]
  have hfind2 : ((db.secrets.map (fun r2 =>
      if r2.id == sid && r2.owner_id == user.user_id then applySecretUpdate su e now r2
      else r2)).find? (fun r2 => r2.id == sid && r2.owner_id == user.user_id)).isSome := by
    rw [List.find?_isSome]
    refine ⟨applySecretUpdate su e now r, ?_, ?_⟩
    · rw [List.mem_map]
      exact ⟨r, hmem, by rw [if_pos hcond]⟩
    · have hid := applySecretUpdate_id su e now r
      have how := applySecretUpdate_owner su e now r
      simp only [hid, how]
      exact hcond
  obtain ⟨r2, hr2⟩ := Option.isSome_iff_exists.mp hfind2
  simp only [update_secret, hr, he, hr2]
  exact ⟨_, _, rfl⟩

lemma delete_secret_ok (deliver : AuditEvent → DeliveryResult) (db : Store) (sid : Nat)
    (user : Identity) (now : Nat)
    (hex : ∃ s ∈ db.secrets, ownedLive sid user s) :
    ∃ m db2, delete_secret deliver db sid user now = .ok (m, db2) := by
  obtain ⟨s, hs, hps⟩ := hex
  have hz : ¬ db.secrets.countP (fun s => ownedLive sid user s) = 0 := by
    rw [List.countP_eq_zero]
    intro hall
    exact absurd hps (by simp [hall s hs])
  simp only [delete_secret, if_neg hz]
  exact ⟨_, _, rfl⟩

lemma generate_password_ne_empty (choice : Nat → Fin rotate_alphabet.length) :
    generate_password choice ≠ "" := by
  intro h
  have hdata : (generate_password choice).data = [] := by rw [h]
  simp [generate_password] at hdata

lemma rotate_secret_ok (cipher : Cipher) (hc : GoodCipher cipher)
    (deliver : AuditEvent → DeliveryResult) (db : Store) (sid : Nat)
    (user : Identity) (choice : Nat → Fin rotate_alphabet.length) (now : Nat)
    (hex : ∃ s ∈ db.secrets, ownedLive sid user s) :
    ∃ v db2, rotate_secret cipher deliver db sid user choice now = .ok (v, db2) := by
  obtain ⟨v, db2, hup⟩ := update_secret_ok cipher hc deliver db sid
    { value := some (generate_password choice) } user now hex
  refine ⟨generate_password choice, db2, ?_⟩
  simp only [rotate_secret, hup]

lemma applySecretUpdate_deleted (su : SecretUpdate) (enc : Option String) (now : Nat)
    (r : SecretRow) : (applySecretUpdate su enc now r).deleted_at = r.deleted_at := by
  rcases su with ⟨v, d, t⟩
  cases enc <;> cases d <;> cases t <;> rfl

lemma applySecretUpdate_version_some (su : SecretUpdate) (e : String) (now : Nat)
    (r : SecretRow) : (applySecretUpdate su (some e) now r).version = r.version + 1 := by
  rcases su with ⟨v, d, t⟩
  cases d <;> cases t <;> rfl

lemma find?_decomp {α : Type} (p : α → Bool) (l : List α) (r : α)
    (h : l.find? p = some r) :
    ∃ l1 l2, l = l1 ++ r :: l2 ∧ ∀ x ∈ l1, p x = false := by
  induction l with
  | nil => cases h
  | cons a t ih =>
    by_cases hpa : p a
    · rw [List.find?_cons_of_pos _ hpa] at h
      injection h with h
      exact ⟨[], t, by rw [h]; rfl, by intro x hx; cases hx⟩
    · rw [List.find?_cons_of_neg _ hpa] at h
      obtain ⟨l1, l2, heq, hall⟩ := ih h
      refine ⟨a :: l1, l2, by rw [heq]; rfl, ?_⟩
      intro x hx
      rcases List.mem_cons.mp hx with hx | hx
      · rw [hx]
        exact Bool.eq_false_iff.mpr hpa
      · exact hall x hx

lemma find?_append_left_none {α : Type} (p : α → Bool) (l1 l : List α)
    (h : ∀ x ∈ l1, p x = false) : (l1 ++ l).find? p = l.find? p := by
  induction l1 with
  | nil => rfl
  | cons a t ih =>
    have hpa : p a = false := h a (List.mem_cons_self a t)
    rw [List.cons_append, List.find?_cons_of_neg _ (by simp [hpa]), ih]
    intro x hx
    exact h x (List.mem_cons_of_mem a hx)

lemma pyTruthyStr_some (v : String) (hv : v ≠ "") : pyTruthyStr (some v) = true := by
  simp [pyTruthyStr, hv]

/-- One value-changing update: archives exactly the pre-update version
and ciphertext, bumps the version by one, and preserves the id column. -/
lemma update_value_step (cipher : Cipher) (hc : GoodCipher cipher)
    (deliver : AuditEvent → DeliveryResult) (db : Store) (sid : Nat) (user : Identity)
    (v : String) (now : Nat) (hv : v ≠ "")
    (huniq : (db.secrets.map (fun s => s.id)).Nodup)
    (r : SecretRow) (hr : db.secrets.find? (ownedLive sid user) = some r) :
    ∃ db2 rnew,
      update_secret cipher deliver db sid { value := some v } user now =
        .ok (rnew.version, db2) ∧
      db2.secrets.find? (ownedLive sid user) = some rnew ∧
      rnew.version = r.version + 1 ∧
      db2.secret_versions = db.secret_versions ++
        [{ secret_id := sid, version := r.version, encrypted_value := r.encrypted_value,
           updated_by := user.user_id }] ∧
      db2.secrets.map (fun s => s.id) = db.secrets.map (fun s => s.id) := by
  obtain ⟨e, he⟩ : ∃ e, encrypt_value cipher v = some e :=
    ⟨_, encrypt_value_eq_some cipher hc v⟩
  have htr : pyTruthyStr (some v) = true := pyTruthyStr_some v hv
  have hencsel : (if pyTruthyStr (some v : Option String) then
      match encrypt_value cipher ((some v : Option String).getD "") with
      | some e2 => some (some e2)
      | none => none
    else some none) = some (some e) := by
    rw [if_pos htr]
    simp only [Option.getD_some, he]
  obtain ⟨l1, l2, heq, hl1⟩ := find?_decomp _ _ _ hr
  have hpr : ownedLive sid user r = true := List.find?_some hr
  rw [ownedLive_eq_true] at hpr
  obtain ⟨hrid, hrown, hrdel⟩ := hpr
  have hmapid : r.id ∉ (l1.map (fun s => s.id) ++ l2.map (fun s => s.id)) := by
    have h1 := huniq
    rw [heq, List.map_append, List.map_cons, List.nodup_middle] at h1
    exact (List.nodup_cons.mp h1).1
  have hneq1 : ∀ x ∈ l1, x.id ≠ sid := by
    intro x hx hxid
    apply hmapid
    have hmem : x.id ∈ l1.map (fun s => s.id) ++ l2.map (fun s => s.id) :=
      List.mem_append_left _ (List.mem_map_of_mem _ hx)
    rwa [hxid, ← hrid] at hmem
  have hneq2 : ∀ x ∈ l2, x.id ≠ sid := by
    intro x hx hxid
    apply hmapid
    have hmem : x.id ∈ l1.map (fun s => s.id) ++ l2.map (fun s => s.id) :=
      List.mem_append_right _ (List.mem_map_of_mem _ hx)
    rwa [hxid, ← hrid] at hmem
  have hcondr : (r.id == sid && r.owner_id == user.user_id) = true := by
    simp [hrid, hrown]
  have hcondfalse : ∀ x : SecretRow, x.id ≠ sid →
      (x.id == sid && x.owner_id == user.user_id) = false := by
    intro x hx
    simp [hx]
  have hmapl : ∀ l' : List SecretRow, (∀ x ∈ l', x.id ≠ sid) →
      l'.map (fun r2 => if r2.id == sid && r2.owner_id == user.user_id then
        applySecretUpdate { value := some v } (some e) now r2 else r2) = l' := by
    intro l' hall
    rw [List.map_congr_left (g := id)]
    · exact List.map_id l'
    · intro x hx
      rw [hcondfalse x (hall x hx), if_neg (by simp)]
      rfl
  have hmaplist : db.secrets.map (fun r2 =>
      if r2.id == sid && r2.owner_id == user.user_id then
        applySecretUpdate { value := some v } (some e) now r2 else r2) =
      l1 ++ applySecretUpdate { value := some v } (some e) now r :: l2 := by
    rw [heq, List.map_append, List.map_cons, hmapl l1 hneq1, hmapl l2 hneq2,
      if_pos hcondr]
  have hrnew_id : (applySecretUpdate { value := some v } (some e) now r).id = r.id :=
    applySecretUpdate_id _ _ _ _
  have hrnew_owner : (applySecretUpdate { value := some v } (some e) now r).owner_id =
      r.owner_id := applySecretUpdate_owner _ _ _ _
  have hrnew_del : (applySecretUpdate { value := some v } (some e) now r).deleted_at =
      r.deleted_at := applySecretUpdate_deleted _ _ _ _
  have hownednew : ownedLive sid user (applySecretUpdate { value := some v } (some e) now r)
      = true := by
    rw [ownedLive_eq_true, hrnew_id, hrnew_owner, hrnew_del]
    exact ⟨hrid, hrown, hrdel⟩
  have hcondnew : ((applySecretUpdate { value := some v } (some e) now r).id == sid &&
      (applySecretUpdate { value := some v } (some e) now r).owner_id == user.user_id)
      = true := by
    rw [hrnew_id, hrnew_owner]
    exact hcondr
  have hfindnew : (l1 ++ applySecretUpdate { value := some v } (some e) now r :: l2).find?
      (ownedLive sid user) = some (applySecretUpdate { value := some v } (some e) now r) := by
    rw [find?_append_left_none _ _ _ hl1]
    exact List.find?_cons_of_pos _ hownednew
  have hfind2b : (l1 ++ applySecretUpdate { value := some v } (some e) now r :: l2).find?
      (fun r2 => r2.id == sid && r2.owner_id == user.user_id) =
      some (applySecretUpdate { value := some v } (some e) now r) := by
    rw [find?_append_left_none]
    · exact List.find?_cons_of_pos _ hcondnew
    · intro x hx
      exact hcondfalse x (hneq1 x hx)
  have hids : (l1 ++ applySecretUpdate { value := some v } (some e) now r :: l2).map
      (fun s => s.id) = db.secrets.map (fun s => s.id) := by
    rw [heq, List.map_append, List.map_append, List.map_cons, List.map_cons, hrnew_id]
  refine ⟨{ db with
      secrets := l1 ++ applySecretUpdate { value := some v } (some e) now r :: l2,
      secret_versions := db.secret_versions ++
        [{ secret_id := sid, version := r.version, encrypted_value := r.encrypted_value,
           updated_by := user.user_id }] },
    applySecretUpdate { value := some v } (some e) now r, ?_, ?_, ?_, ?_, ?_⟩
  · simp only [update_secret, hr, hencsel, hmaplist, hfind2b]
  · exact hfindnew
  · exact applySecretUpdate_version_some _ _ _ _
  · rfl
  · exact hids

lemma versionsOf_eq_of_append (db2 db : Store) (sid : Nat) (x : VersionRow)
    (hx : x.secret_id = sid)
    (h : db2.secret_versions = db.secret_versions ++ [x]) :
    versionsOf db2 sid = versionsOf db sid ++ [x.version] := by
  simp [versionsOf, h, List.filter_append, hx]

lemma applyValueUpdates_invariant (cipher : Cipher) (hc : GoodCipher cipher)
    (deliver : AuditEvent → DeliveryResult) (sid : Nat) (user : Identity) (now : Nat) :
    ∀ (vals : List String) (db : Store) (r : SecretRow) (k : Nat),
    (∀ v ∈ vals, v ≠ "") →
    (db.secrets.map (fun s => s.id)).Nodup →
    db.secrets.find? (ownedLive sid user) = some r →
    r.version = k + 1 →
    versionsOf db sid = List.range' 1 k →
    ∃ dbN rN, applyValueUpdates cipher deliver sid user now db vals = .ok dbN ∧
      dbN.secrets.find? (ownedLive sid user) = some rN ∧
      rN.version = k + vals.length + 1 ∧
      versionsOf dbN sid = List.range' 1 (k + vals.length) := by
  intro vals
  induction vals with
  | nil =>
    intro db r k hv huniq hr hver hvers
    exact ⟨db, r, rfl, hr, by simpa using hver, by simpa using hvers⟩
  | cons v vs ih =>
    intro db r k hv huniq hr hver hvers
    obtain ⟨db2, rnew, hup, hfind2, hvernew, hversions2, hids⟩ :=
      update_value_step cipher hc deliver db sid user v now
        (hv v (List.mem_cons_self v vs)) huniq r hr
    have huniq2 : (db2.secrets.map (fun s => s.id)).Nodup := by
      rw [hids]
      exact huniq
    have hvers2 : versionsOf db2 sid = List.range' 1 (k + 1) := by
      rw [versionsOf_eq_of_append db2 db sid _ rfl hversions2, hvers, hver]
      rw [List.range'_concat]
      simp [Nat.add_comm]
    obtain ⟨dbN, rN, happ, hfindN, hverN, hversN⟩ :=
      ih db2 rnew (k + 1) (fun x hx => hv x (List.mem_cons_of_mem v hx)) huniq2 hfind2
        (by rw [hvernew, hver]) hvers2
    refine ⟨dbN, rN, ?_, hfindN, ?_, ?_⟩
    · rw [applyValueUpdates, hup]
      exact happ
    · rw [hverN]
      simp
      omega
    · rw [hversN]
      congr 1
      simp
      omega

/-- C4: Get fails with `NotFoundError` exactly when the secret does not
exist, is soft-deleted, or (for a non-admin caller) is not owned by the
caller; the error is the single `notFoundError` value in all three
cases, and an admin caller is exempt from the ownership condition.
Stated under the foreign-key invariant that secret owners exist in
`users`. -/
theorem C4_get_not_found_iff (cipher : Cipher) (deliver : AuditEvent → DeliveryResult) (db : Store)
    (secret_id : Nat) (show_value : Bool) (user : Identity) (now : Nat)
    (hwf : StoreOwnersExist db) :
    (get_secret cipher deliver db secret_id show_value user now = .error notFoundError ↔
      ¬ ∃ s ∈ db.secrets, s.id = secret_id ∧ s.deleted_at = none ∧
        (user.role = "admin" ∨ s.owner_id = user.user_id)) := by
  have hq : getQuery db secret_id user = none ↔
      ¬ ∃ s ∈ db.secrets, s.id = secret_id ∧ s.deleted_at = none ∧
        (user.role = "admin" ∨ s.owner_id = user.user_id) := by
    by_cases hadmin : user.role = "admin"
    · rw [getQuery, if_pos hadmin, selectJoinFirst_eq_none_iff db _ hwf]
      constructor
      · rintro hall ⟨s, hs, hid, hlive, _⟩
        exact hall s hs (by simp [hid, hlive])
      · intro hnone s hs hp
        simp only [Bool.and_eq_true, beq_iff_eq] at hp
        exact hnone ⟨s, hs, hp.1, by simpa using hp.2, Or.inl hadmin⟩
    · rw [getQuery, if_neg hadmin, selectJoinFirst_eq_none_iff db _ hwf]
      constructor
      · rintro hall ⟨s, hs, hid, hlive, howner⟩
        rcases howner with h | h
        · exact absurd h hadmin
        · exact hall s hs (by simp [hid, hlive, h])
      · intro hnone s hs hp
        simp only [Bool.and_eq_true, beq_iff_eq] at hp
        exact hnone ⟨s, hs, hp.1.1, by simpa using hp.2, Or.inr hp.1.2⟩
  rw [← hq]
  rcases hsel : getQuery db secret_id user with _ | ⟨s0, u0⟩
  · constructor
    · intro _; rfl
    · intro _
      simp only [get_secret, hsel]
  · constructor
    · intro h
      exfalso
      simp only [get_secret, hsel] at h
      rcases hv : (if show_value then decrypt_value cipher s0.encrypted_value
          else some maskedValue) with _ | v
      · rw [hv] at h
        simp [notFoundError] at h
      · rw [hv] at h
        simp at h
    · intro h
      cases h

/-- C7: every value generated by Rotate is exactly 20 characters long,
each drawn from the fixed alphabet of letters, digits and the
punctuation subset, whatever the randomness source produces (the
`secrets` CSPRNG is modelled as an arbitrary oracle and the theorem
quantifies over all oracles), and Rotate applies exactly this value to
the secret through the Update path. -/
theorem C7_rotate_generation (cipher : Cipher) (deliver : AuditEvent → DeliveryResult) (db : Store)
    (secret_id : Nat) (user : Identity) (choice : Nat → Fin rotate_alphabet.length)
    (now : Nat) :
    (generate_password choice).length = 20 ∧
    (∀ ch ∈ (generate_password choice).data, ch ∈ rotate_alphabet) ∧
    (rotate_secret cipher deliver db secret_id user choice now =
      match update_secret cipher deliver db secret_id
          { value := some (generate_password choice) } user now with
      | .error e => .error e
      | .ok (_, db2) => .ok (generate_password choice, db2)) := by
  refine ⟨?_, ?_, rfl⟩
  · simp [generate_password, String.length]
  · intro ch hch
    simp only [generate_password] at hch
    rw [List.mem_map] at hch
    obtain ⟨i, _, hi⟩ := hch
    rw [← hi]
    exact List.get_mem rotate_alphabet (choice i).1 (choice i).2

/-- C10: Update, Delete and Rotate check only ownership, never the
role: their results are invariant under changing the caller role, and
any caller — whatever the role, including `user` — owning a live secret
succeeds in all three operations. -/
theorem C10_ownership_only (cipher : Cipher) (hc : GoodCipher cipher)
    (deliver : AuditEvent → DeliveryResult) (db : Store) (secret_id : Nat)
    (su : SecretUpdate) (user : Identity) (choice : Nat → Fin rotate_alphabet.length)
    (now : Nat)
    (hown : ∃ s ∈ db.secrets, s.id = secret_id ∧ s.owner_id = user.user_id ∧
      s.deleted_at = none) :
    (∀ role2 role3 : String,
      update_secret cipher deliver db secret_id su ⟨user.user_id, user.email, role2⟩ now =
        update_secret cipher deliver db secret_id su ⟨user.user_id, user.email, role3⟩ now ∧
      delete_secret deliver db secret_id ⟨user.user_id, user.email, role2⟩ now =
        delete_secret deliver db secret_id ⟨user.user_id, user.email, role3⟩ now ∧
      rotate_secret cipher deliver db secret_id ⟨user.user_id, user.email, role2⟩ choice now =
        rotate_secret cipher deliver db secret_id ⟨user.user_id, user.email, role3⟩ choice now) ∧
    (∃ v db2, update_secret cipher deliver db secret_id su user now = .ok (v, db2)) ∧
    (∃ m db2, delete_secret deliver db secret_id user now = .ok (m, db2)) ∧
    (∃ v db2, rotate_secret cipher deliver db secret_id user choice now = .ok (v, db2)) := by
  have hex : ∃ s ∈ db.secrets, ownedLive secret_id user s := by
    obtain ⟨s, hs, hp⟩ := hown
    exact ⟨s, hs, (ownedLive_eq_true secret_id user s).mpr hp⟩
  refine ⟨fun role2 role3 => ⟨rfl, rfl, rfl⟩,
    update_secret_ok cipher hc deliver db secret_id su user now hex,
    delete_secret_ok deliver db secret_id user now hex,
    rotate_secret_ok cipher hc deliver db secret_id user choice now hex⟩

/-- C1 (amended): starting from a secret at version 1 with no archive
rows, after N value-changing updates (and no other updates) the version
is N+1 and exactly N SecretVersion rows exist with distinct consecutive
numbers 1..N; moreover every successful update — metadata-only updates
included — archives exactly one row holding the pre-update version and
ciphertext (for a value-changing update, immediately before the
increment). -/
theorem C1_version_history (cipher : Cipher) (hc : GoodCipher cipher)
    (deliver : AuditEvent → DeliveryResult) (db0 : Store) (sid : Nat) (user : Identity)
    (now : Nat) (vals : List String) (r0 : SecretRow)
    (hvals : ∀ v ∈ vals, v ≠ "")
    (huniq : (db0.secrets.map (fun s => s.id)).Nodup)
    (hr0 : db0.secrets.find? (ownedLive sid user) = some r0)
    (hver0 : r0.version = 1)
    (hvers0 : versionsOf db0 sid = []) :
    (∃ dbN rN, applyValueUpdates cipher deliver sid user now db0 vals = .ok dbN ∧
      dbN.secrets.find? (ownedLive sid user) = some rN ∧
      rN.version = vals.length + 1 ∧
      versionsOf dbN sid = List.range' 1 vals.length ∧
      (versionsOf dbN sid).length = vals.length) ∧
    (∀ (db : Store) (su : SecretUpdate) (r : SecretRow) (res : Nat) (db2 : Store),
      db.secrets.find? (ownedLive sid user) = some r →
      update_secret cipher deliver db sid su user now = .ok (res, db2) →
      db2.secret_versions = db.secret_versions ++
        [{ secret_id := sid, version := r.version, encrypted_value := r.encrypted_value,
           updated_by := user.user_id }]) := by
  constructor
  · obtain ⟨dbN, rN, happ, hfindN, hverN, hversN⟩ :=
      applyValueUpdates_invariant cipher hc deliver sid user now vals db0 r0 0 hvals huniq
        hr0 (by simpa using hver0) (by simpa using hvers0)
    refine ⟨dbN, rN, happ, hfindN, by simpa using hverN, by simpa using hversN, ?_⟩
    rw [hversN]
    simp [List.length_range']
  · intro db su r res db2 hfind hok
    simp only [update_secret, hfind] at hok
    split at hok
    · cases hok
    · split at hok
      · cases hok
      · simp only [Except.ok.injEq, Prod.mk.injEq] at hok
        obtain ⟨-, hdb2⟩ := hok
        subst hdb2
        rfl

/-- C1 counterexample: a metadata-only update (no value field) on a
fresh version-1 secret leaves one archived SecretVersion row, where the
claim ("never for a metadata-only update") requires zero. -/
theorem C1_counterexample :
    ∃ db2, update_secret hexCipher deliverOk store1 1
        { value := none, description := some "metadata only", tags := none } alice 5 =
      .ok (1, db2) ∧ versionsOf db2 1 = [1] := by
  exact ⟨_, rfl, rfl⟩

/-- C1 witness: two value-changing updates on the fixture store reach
version 3 with archived versions 1 and 2. -/
theorem C1_version_history_witness :
    ∃ dbN rN,
      applyValueUpdates hexCipher deliverOk 1 alice 5 store1 ["p@ss2", "p@ss3"] = .ok dbN ∧
      dbN.secrets.find? (ownedLive 1 alice) = some rN ∧
      rN.version = 3 ∧ versionsOf dbN 1 = [1, 2] ∧ (versionsOf dbN 1).length = 2 := by
  obtain ⟨dbN, rN, h1, h2, h3, h4, h5⟩ :=
    (C1_version_history hexCipher goodCipher_hexCipher deliverOk store1 1 alice 5 ["p@ss2", "p@ss3"]
      secret1 (by decide) (by decide) (by rfl) rfl rfl).1
  exact ⟨dbN, rN, h1, h2, h3, h4, h5⟩

lemma zip_self_eq {α : Type} (l : List α) : ∀ p ∈ l.zip l, p.1 = p.2 := by
  induction l with
  | nil => intro p hp; cases hp
  | cons a t ih =>
    intro p hp
    rw [List.zip_cons_cons] at hp
    rcases List.mem_cons.mp hp with h | h
    · rw [h]
    · exact ih p h

/-- C3: only the owning identity may update: any caller whose user id
differs from the owner of the secret — whatever the role, admin
included — receives `notFoundError`, the very error returned for a
nonexistent or soft-deleted secret. -/
theorem C3_update_owner_only (cipher : Cipher) (deliver : AuditEvent → DeliveryResult)
    (db : Store) (secret_id : Nat) (su : SecretUpdate) (user : Identity) (now : Nat) :
    ((∀ s ∈ db.secrets, s.id = secret_id → s.owner_id ≠ user.user_id) →
      update_secret cipher deliver db secret_id su user now = .error notFoundError) ∧
    ((∀ s ∈ db.secrets, s.id ≠ secret_id) →
      update_secret cipher deliver db secret_id su user now = .error notFoundError) ∧
    ((∀ s ∈ db.secrets, s.id = secret_id → s.deleted_at ≠ none) →
      update_secret cipher deliver db secret_id su user now = .error notFoundError) := by
  have key : db.secrets.find? (ownedLive secret_id user) = none →
      update_secret cipher deliver db secret_id su user now = .error notFoundError := by
    intro hnone
    simp only [update_secret, hnone]
  refine ⟨fun h => key ?_, fun h => key ?_, fun h => key ?_⟩
  · rw [List.find?_eq_none]
    intro s hs hps
    rw [ownedLive_eq_true] at hps
    exact h s hs hps.1 hps.2.1
  · rw [List.find?_eq_none]
    intro s hs hps
    rw [ownedLive_eq_true] at hps
    exact h s hs hps.1
  · rw [List.find?_eq_none]
    intro s hs hps
    rw [ownedLive_eq_true] at hps
    exact h s hs hps.1 hps.2.2

/-- C3 witness: an admin who is not the owner updates the fixture
secret and receives the Not-Found error. -/
theorem C3_update_owner_only_witness :
    update_secret hexCipher deliverOk store1 1 {} adminUser 5 = .error notFoundError :=
  (C3_update_owner_only hexCipher deliverOk store1 1 {} adminUser 5).1 (by decide)

/-- C4 witness: a Get of a nonexistent id by the owner of the fixture
store fails with the Not-Found error. -/
theorem C4_get_not_found_iff_witness :
    get_secret hexCipher deliverOk store1 99 false alice 5 = .error notFoundError :=
  (C4_get_not_found_iff hexCipher deliverOk store1 99 false alice 5
    (by unfold StoreOwnersExist; decide)).mpr (by decide)

/-- C5: Create fails with `ForbiddenError` exactly when the caller role
is `user`; roles `admin` and `developer` are permitted and receive a
secret whose version is 1. -/
theorem C5_create_rbac (cipher : Cipher) (hc : GoodCipher cipher)
    (deliver : AuditEvent → DeliveryResult) (db : Store) (secret : SecretCreate)
    (user : Identity) (now : Nat) :
    (create_secret cipher deliver db secret user now = .error forbiddenCreateError ↔
      user.role = "user") ∧
    (user.role = "admin" ∨ user.role = "developer" →
      ∃ resp db2, create_secret cipher deliver db secret user now = .ok (resp, db2) ∧
        resp.version = 1) := by
  by_cases hr : user.role = "user"
  · have hcreate : create_secret cipher deliver db secret user now =
        .error forbiddenCreateError := by
      simp [create_secret, hr]
    refine ⟨by simp [hcreate, hr], fun hroles => ?_⟩
    exfalso
    rcases hroles with h | h <;> rw [h] at hr <;> simp at hr
  · obtain ⟨t, ht⟩ : ∃ t, encrypt_value cipher secret.value = some t :=
      ⟨_, encrypt_value_eq_some cipher hc secret.value⟩
    refine ⟨⟨fun habs => ?_, fun h => absurd h hr⟩, fun _ => ?_⟩
    · simp only [create_secret, if_neg hr, ht] at habs
      exact absurd habs (by simp)
    · simp only [create_secret, if_neg hr, ht]
      exact ⟨_, _, rfl, rfl⟩

/-- C5 witness: the read-only role is rejected with the Forbidden
error, and the developer role receives a version-1 secret. -/
theorem C5_create_rbac_witness :
    create_secret hexCipher deliverOk store1 createReq bobUser 7 =
      .error forbiddenCreateError ∧
    ∃ resp db2, create_secret hexCipher deliverOk store1 createReq alice 7 =
      .ok (resp, db2) ∧ resp.version = 1 :=
  ⟨(C5_create_rbac hexCipher goodCipher_hexCipher deliverOk store1 createReq bobUser 7).1.mpr
      rfl,
   (C5_create_rbac hexCipher goodCipher_hexCipher deliverOk store1 createReq alice 7).2
      (Or.inr rfl)⟩

/-- C6: Delete fails with `NotFoundError` exactly when no live row of
that id is owned by the caller (so for an already-deleted, nonexistent,
or unowned secret); a successful Delete only sets the `deleted_at`
tombstone — the row count is unchanged and every other column of every
row is preserved. -/
theorem C6_delete_soft (deliver : AuditEvent → DeliveryResult) (db : Store) (secret_id : Nat)
    (user : Identity) (now : Nat) :
    (delete_secret deliver db secret_id user now = .error notFoundError ↔
      ∀ s ∈ db.secrets, ¬ (s.id = secret_id ∧ s.owner_id = user.user_id ∧
        s.deleted_at = none)) ∧
    (∀ msg db2, delete_secret deliver db secret_id user now = .ok (msg, db2) →
      db2.secrets = db.secrets.map (fun s =>
        if ownedLive secret_id user s then { s with deleted_at := some now } else s) ∧
      db2.secrets.length = db.secrets.length ∧
      ∀ p ∈ db2.secrets.zip db.secrets, sameExceptDeleted p.1 p.2) := by
  constructor
  · constructor
    · intro h s hs hp
      simp only [delete_secret] at h
      by_cases hz : db.secrets.countP (fun s => ownedLive secret_id user s) = 0
      · rw [List.countP_eq_zero] at hz
        exact hz s hs ((ownedLive_eq_true secret_id user s).mpr hp)
      · rw [if_neg hz] at h
        cases h
    · intro hall
      have hz : db.secrets.countP (fun s => ownedLive secret_id user s) = 0 := by
        rw [List.countP_eq_zero]
        intro s hs
        rw [ownedLive_eq_true]
        exact hall s hs
      simp only [delete_secret, hz, if_true, reduceIte]
  · intro msg db2 hok
    simp only [delete_secret] at hok
    by_cases hz : db.secrets.countP (fun s => ownedLive secret_id user s) = 0
    · rw [if_pos hz] at hok
      cases hok
    · rw [if_neg hz] at hok
      simp only [Except.ok.injEq, Prod.mk.injEq] at hok
      obtain ⟨hmsg, hdb2⟩ := hok
      subst hdb2
      refine ⟨rfl, by simp, ?_⟩
      intro p hp
      have hmap : (db.secrets.map (fun s =>
          if ownedLive secret_id user s then { s with deleted_at := some now } else s)).zip
            db.secrets =
          (db.secrets.zip db.secrets).map
            (fun q => (if ownedLive secret_id user q.1 then
              { q.1 with deleted_at := some now } else q.1, q.2)) := by
        rw [List.zip_map_left]
        rfl
      rw [hmap] at hp
      rw [List.mem_map] at hp
      obtain ⟨q, hq, hpq⟩ := hp
      have hqeq := zip_self_eq db.secrets q hq
      subst hpq
      by_cases hpred : ownedLive secret_id user q.1
      · simp only [if_pos hpred]
        rw [hqeq]
        exact ⟨rfl, rfl, rfl, rfl, rfl, rfl, rfl, rfl, rfl, rfl⟩
      · simp only [if_neg hpred]
        rw [hqeq]
        exact ⟨rfl, rfl, rfl, rfl, rfl, rfl, rfl, rfl, rfl, rfl⟩

/-- C6 witness: deleting a nonexistent id on the fixture store fails
with the Not-Found error. -/
theorem C6_delete_soft_witness :
    delete_secret deliverOk store1 99 alice 5 = .error notFoundError :=
  (C6_delete_soft deliverOk store1 99 alice 5).1.mpr (by decide)

/-- C9: audit delivery is fire-and-forget: `log_audit` absorbs every
delivery outcome (success, unreachable collaborator, timeout, any
exception), and each mutation — Create, Update, Delete, Rotate —
returns the same result and store under any delivery oracle as under
the always-succeeding one. -/
theorem C9_audit_fire_and_forget :
    (∀ (deliver : AuditEvent → DeliveryResult) (uid : Nat) (action : String) (sid : Nat)
        (email : String) (now : Nat),
        log_audit deliver uid action sid email now = ()) ∧
    (∀ cipher deliver db secret user now,
        create_secret cipher deliver db secret user now =
          create_secret cipher deliverOk db secret user now) ∧
    (∀ cipher deliver db sid su user now,
        update_secret cipher deliver db sid su user now =
          update_secret cipher deliverOk db sid su user now) ∧
    (∀ deliver db sid user now,
        delete_secret deliver db sid user now = delete_secret deliverOk db sid user now) ∧
    (∀ cipher deliver db sid user choice now,
        rotate_secret cipher deliver db sid user choice now =
          rotate_secret cipher deliverOk db sid user choice now) := by
  refine ⟨fun d uid a sid e n => ?_, fun c d db s u n => rfl, fun c d db sid su u n => rfl,
    fun d db sid u n => rfl, fun c d db sid u ch n => rfl⟩
  cases h : d ⟨uid, e, a, sid, n⟩ <;> simp [log_audit, h]

/-- C10 witness: the read-only-role owner of the fixture secret
succeeds in Update, Delete and Rotate. -/
theorem C10_ownership_only_witness :
    (∃ v db2, update_secret hexCipher deliverOk store2 2 {} bobUser 9 = .ok (v, db2)) ∧
    (∃ m db2, delete_secret deliverOk store2 2 bobUser 9 = .ok (m, db2)) ∧
    (∃ v db2, rotate_secret hexCipher deliverOk store2 2 bobUser choice0 9 = .ok (v, db2)) := by
  have h := C10_ownership_only hexCipher goodCipher_hexCipher deliverOk store2 2 {} bobUser
    choice0 9 (by decide)
  exact ⟨h.2.1, h.2.2.1, h.2.2.2⟩

end CMS
